import Mathlib

/-!
Shallow embedding of the `twitchlink` repository's core logic.

The embedding covers:
* the playlist scanner of `client::get` (src/client.rs, duplicated in
  src/main.rs `Client::get`), including its two `unwrap` panic sites and the
  `quality[..3]` byte-slice panic site, modelled as an explicit `panic`
  outcome;
* the dedup-by-quality map and the final descending sort;
* the `(token, sig)` extraction of `fetch_playlist` over a generic JSON value;
* `FromStr for Quality` and the quality-policy resolution performed in
  `src/bin/main.rs` `main` (`Best` / `Lowest` / `Custom`), with the two abort
  messages modelled by the spec's `StreamOffline` / `QualityUnavailable`
  error values.

Rust string operations used by the source are re-implemented structurally
over `String.data` (`Char` lists) so that every definition reduces in the
kernel; `quality[..3]` is byte-precise via `Char.utf8Size`.
-/

namespace Twitchlink

/-! ### Rust string primitives -/

/-- `char::to_ascii_lowercase`: shift only ASCII `A`–`Z` down by 32. -/
def asciiLowerChar (c : Char) : Char :=
  if 'A' ≤ c ∧ c ≤ 'Z' then Char.ofNat (c.toNat + 32) else c

/-- `str::to_ascii_lowercase`. -/
def asciiLower (s : String) : String :=
  ⟨s.data.map asciiLowerChar⟩

/-- `str::starts_with(c)` for a single `char` pattern. -/
def startsWithChar (s : String) (c : Char) : Bool :=
  match s.data with
  | [] => false
  | d :: _ => d = c

/-- `str::ends_with(c)` for a single `char` pattern. -/
def endsWithChar (s : String) (c : Char) : Bool :=
  s.data.getLast? = some c

/-- The suffix of `s` after the first occurrence of `pat`
(`&s[idx + pat.len()..]` where `idx = s.find(pat)`); `none` when `pat` does
not occur in `s`. -/
def afterFirst? (pat : List Char) : List Char → Option (List Char)
  | [] => if pat = [] then some [] else none
  | c :: cs =>
    if pat.isPrefixOf (c :: cs) then some ((c :: cs).drop pat.length)
    else afterFirst? pat cs

/-- `str::contains(pat)`. -/
def containsSub (s : String) (pat : String) : Bool :=
  (afterFirst? pat.data s.data).isSome

/-- `str::replace("\"", "")` applied to the text after `VIDEO=`: a
single-character pattern, so it is exactly a filter. -/
def removeQuotes (cs : List Char) : String :=
  ⟨cs.filter (fun c => c ≠ '"')⟩

/-- The `search` closure of `client::get`: find `marker` in `line`
(`line.find(q).unwrap()`), then the next `','` at or after it
(`line[pos..].find(',').unwrap()`), and return the text in between.
`none` models either `unwrap` panicking.  The marker itself contains no
comma, so the comma search within `line[pos..]` is a comma search within
the suffix after the marker. -/
def searchAttr (line : String) (marker : String) : Option String :=
  (afterFirst? marker.data line.data).bind fun suffix =>
    if suffix.contains ',' then some ⟨suffix.takeWhile (fun c => c ≠ ',')⟩
    else none

/-- Byte length of a `Char` list under UTF-8, as Rust's `str::len`. -/
def byteLenL : List Char → Nat
  | [] => 0
  | c :: cs => c.utf8Size + byteLenL cs

/-- Byte length of a string (Rust `str::len`). -/
def byteLen (s : String) : Nat := byteLenL s.data

/-- The characters of the first `k` bytes of a list, `none` when `k` is not
a character boundary (fewer than `k` bytes, or `k` falls inside a
character): the validity condition of the Rust slice `s[..k]`. -/
def takeBytes : List Char → Nat → Option (List Char)
  | _, 0 => some []
  | [], _ + 1 => none
  | c :: cs, k + 1 =>
    if c.utf8Size ≤ k + 1 then (takeBytes cs (k + 1 - c.utf8Size)).map (c :: ·)
    else none

/-- `u32::from_str` restricted to short inputs: an optional leading `'+'`
followed by at least one ASCII digit.  The source only ever applies it to
the (at most three byte) prefix `quality[..3]`, so overflow cannot occur
and is not modelled. -/
def digitsToNat? (cs : List Char) : Option Nat :=
  if cs = [] then none
  else if cs.all Char.isDigit then
    some (cs.foldl (fun acc c => acc * 10 + (c.toNat - 48)) 0)
  else none

/-- Rust `str::parse::<u32>()` on a short ASCII string. -/
def rustParseU32 (s : String) : Option Nat :=
  match s.data with
  | '+' :: rest => digitsToNat? rest
  | cs => digitsToNat? cs

/-- Split on `'\n'`, accumulator-reversed variant. -/
def splitNL : List Char → List Char → List (List Char)
  | [], acc => [acc.reverse]
  | c :: rest, acc =>
    if c = '\n' then acc.reverse :: splitNL rest []
    else splitNL rest (c :: acc)

/-- Strip one trailing `'\r'` (Rust `lines()` does this per line). -/
def stripCR (l : List Char) : List Char :=
  if l.getLast? = some '\r' then l.dropLast else l

/-- `str::lines()`: split on `'\n'`, drop a final empty segment, strip a
trailing `'\r'` from each line. -/
def rustLines (s : String) : List String :=
  let parts := splitNL s.data []
  let parts := if parts.getLast? = some [] then parts.dropLast else parts
  parts.map (fun l => ⟨stripCR l⟩)

/-! ### Data model (src/client.rs) -/

/-- `client::Stream`: one playable variant.  `quality : Option u32` is
modelled with `Nat` (all ranks produced by the parser come from a three-byte
decimal prefix, hence are below `2^32`, so the `% 2^32` wrap never fires and
is omitted). -/
structure Stream where
  resolution : String
  bandwidth : String
  link : String
  quality : Option Nat
  ty : String
deriving DecidableEq, Repr

/-- `error::Error`.  The four transport variants carry an opaque
`attohttpc::Error` payload in the source; nothing in the program inspects
it, so it is elided here. -/
inductive Error where
  | GetAccessToken
  | Deserialize
  | GetPlaylist
  | GetResponseBody
  | InvalidPlaylist
  | FindToken
  | FindSignature
deriving DecidableEq, Repr

/-- Result of running a piece of the pipeline: a value, a typed `Error`, or
a Rust panic (`unwrap` on `None` or an out-of-bounds byte slice). -/
inductive Outcome (α : Type) where
  | ok (val : α)
  | err (e : Error)
  | panic
deriving DecidableEq, Repr

/-- `true` exactly on the `err` constructor. -/
def Outcome.isTypedErr : Outcome α → Bool
  | .err _ => true
  | _ => false

/-- `client::Quality` (named `Quality { Best, Lowest, Custom }` in
src/main.rs and in the consumer `src/bin/main.rs`; src/client.rs spells the
middle variant `Worst`). -/
inductive Quality where
  | Best
  | Lowest
  | Custom (s : String)
deriving DecidableEq, Repr

/-! ### The playlist scanner of `client::get` -/

/-- The three mutable locals of the scanning loop plus the dedup map.  The
`HashMap<Option<u32>, Stream>` keyed by `s.quality` is modelled as an
association list with at most one entry per `quality` key; the final sort
makes its iteration order irrelevant. -/
structure ScanState where
  quality : String
  resolution : String
  bandwidth : String
  map : List Stream
deriving DecidableEq, Repr

/-- `HashMap::insert` keyed on `Stream.quality`: replace the entry with
that key, or append. -/
def insertStream (m : List Stream) (s : Stream) : List Stream :=
  match m with
  | [] => [s]
  | t :: ts => if t.quality = s.quality then s :: ts else t :: insertStream ts s

/-- The `if line.contains("VIDEO=")` block: extract the quality tag (text
after `VIDEO=` with all `'"'` removed) and run the `search` closure for
`BANDWIDTH=` and `RESOLUTION=`.  The `ok_or_else(InvalidPlaylist)` on
`match_indices` is kept even though it can never fire under the `contains`
guard; a failed `search` is the `unwrap` panic. -/
def videoPhase (st : ScanState) (line : String) : Outcome ScanState :=
  if containsSub line "VIDEO=" then
    match afterFirst? ("VIDEO=".data) line.data with
    | none => .err .InvalidPlaylist
    | some rest =>
      match searchAttr line "BANDWIDTH=", searchAttr line "RESOLUTION=" with
      | some bw, some res =>
        .ok { st with quality := removeQuotes rest, bandwidth := bw, resolution := res }
      | _, _ => .panic
  else .ok st

/-- The emitted variant for a `"chunked"` tag. -/
def mkChunked (st : ScanState) (line : String) : Stream :=
  { resolution := st.resolution, bandwidth := st.bandwidth, link := line
    quality := none, ty := "best" }

/-- The emitted variant for a numeric tag prefix `n`. -/
def mkRanked (st : ScanState) (line : String) (n : Nat) : Stream :=
  { resolution := st.resolution, bandwidth := st.bandwidth, link := line
    quality := some n, ty := Nat.repr n ++ "p" }

/-- The rest of the loop body: skip when no tag is pending or the line is a
comment; otherwise classify the pending tag on this (URI) line.  The Rust
match scrutinee evaluates `quality[..3]` before any arm is tried, so the
byte slice is checked first (`takeBytes … 3 = none` is the slice panic);
then `"chunked"`, then the numeric prefix, then the warn-and-skip arm,
which clears only `quality` and keeps `resolution`/`bandwidth`. -/
def classifyPhase (st : ScanState) (line : String) : Outcome ScanState :=
  if st.quality = "" ∨ startsWithChar line '#' then .ok st
  else
    match takeBytes st.quality.data 3 with
    | none => .panic
    | some pre =>
      if st.quality = "chunked" then
        .ok { quality := "", resolution := "", bandwidth := ""
              map := insertStream st.map (mkChunked st line) }
      else
        match rustParseU32 ⟨pre⟩ with
        | some n =>
          .ok { quality := "", resolution := "", bandwidth := ""
                map := insertStream st.map (mkRanked st line n) }
        | none => .ok { st with quality := "" }

/-- One iteration of `for line in playlist.lines()`. -/
def step (st : ScanState) (line : String) : Outcome ScanState :=
  match videoPhase st line with
  | .ok st1 => classifyPhase st1 line
  | .err e => .err e
  | .panic => .panic

/-- The whole loop. -/
def runLines (st : ScanState) : List String → Outcome ScanState
  | [] => .ok st
  | l :: ls =>
    match step st l with
    | .ok st' => runLines st' ls
    | .err e => .err e
    | .panic => .panic

/-- Initial scanner state. -/
def initState : ScanState := ⟨"", "", "", []⟩

/-! ### The final sort of `client::get` -/

/-- The sort comparator as a "may precede" relation: `a` may come before
`b` iff the Rust comparator does not return `Greater`.  `(None, _) → Less`
and `(_, None) → Greater` put the source variant first;
`(Some a, Some b) → b.cmp(&a)` is descending on ranks. -/
def qle (a b : Stream) : Bool :=
  match a.quality, b.quality with
  | none, _ => true
  | some _, none => false
  | some x, some y => y ≤ x

/-- Insertion sort with `qle`.  `sort_unstable_by` is an unspecified
unstable sort, but the map holds at most one entry per `quality` key, on
which `qle` is a total order that ties only on equal keys, so every
correct sort produces the same list; insertion sort is used as the
executable representative. -/
def insertSorted (s : Stream) : List Stream → List Stream
  | [] => [s]
  | t :: ts => if qle s t then s :: t :: ts else t :: insertSorted s ts

/-- The full sort. -/
def sortStreams : List Stream → List Stream
  | [] => []
  | s :: ss => insertSorted s (sortStreams ss)

/-- `client::get`, from the playlist text onward (the two HTTP round trips
of `fetch_playlist` are the out-of-scope transport; their token-extraction
logic is modelled separately below): scan the lines, then sort the
deduplicated map. -/
def get (playlist : String) : Outcome (List Stream) :=
  match runLines initState (rustLines playlist) with
  | .ok st => .ok (sortStreams st.map)
  | .err e => .err e
  | .panic => .panic

/-! ### Token extraction of `fetch_playlist` -/

/-- A parsed `serde_json::Value`.  Objects are association lists with
distinct keys (serde's map keeps one value per key); numbers are elided to
`Int` since the program never reads one. -/
inductive Json where
  | null
  | bool (b : Bool)
  | num (n : Int)
  | str (s : String)
  | arr (xs : List Json)
  | obj (fields : List (String × Json))

/-- Object field lookup, `none` on every non-object (`Value::get`). -/
def lookupField : List (String × Json) → String → Option Json
  | [], _ => none
  | (k, v) :: rest, key => if k = key then some v else lookupField rest key

/-- `serde_json::Value::get(key)`. -/
def jGet : Json → String → Option Json
  | .obj fields, key => lookupField fields key
  | _, _ => none

/-- `serde_json::Value::as_str`. -/
def jAsStr : Json → Option String
  | .str s => some s
  | _ => none

/-- The `(token, sig)` match of `fetch_playlist` on a well-formed JSON
body: `(Some, Some)` succeeds, `(None, _)` is `FindToken`, `(_, None)` is
`FindSignature`. -/
def extract_token_sig (val : Json) : Except Error (String × String) :=
  match (jGet val "token").bind jAsStr, (jGet val "sig").bind jAsStr with
  | some token, some sig => .ok (token, sig)
  | none, _ => .error .FindToken
  | _, none => .error .FindSignature

/-! ### `FromStr for Quality` and the policy resolution of the CLI -/

/-- `impl FromStr for Quality` (identical in src/client.rs and
src/main.rs): lower-case the input, then match.  The second arm's literal
is `"lowest "` with a trailing space, exactly as in the source. -/
def quality_from_str (s : String) : Quality :=
  let input := asciiLower s
  if input = "best" ∨ input = "highest" then .Best
  else if input = "worst" ∨ input = "lowest " then .Lowest
  else .Custom input

/-- The spec's error values for the two failing abort paths of the policy
resolution in `src/bin/main.rs` `main` ("stream … is offline" and
"quality … is not available"). -/
inductive SelectError where
  | StreamOffline
  | QualityUnavailable (label : String)
deriving DecidableEq, Repr

/-- `Custom` label normalization (`if !s.ends_with('p') { s.push('p') }`). -/
def normLabel (s : String) : String :=
  if endsWithChar s 'p' then s else s ++ "p"

/-- The quality-policy resolution of `src/bin/main.rs` `main`:
`Best → streams.first()`, `Lowest → streams.last()`,
`Custom → find by exact label` after `normLabel`; each `None` maps to the
corresponding abort path's error value. -/
def select (streams : List Stream) (q : Quality) : Except SelectError Stream :=
  match q with
  | .Best =>
    match streams.head? with
    | some s => .ok s
    | none => .error .StreamOffline
  | .Lowest =>
    match streams.getLast? with
    | some s => .ok s
    | none => .error .StreamOffline
  | .Custom lbl =>
    let lbl := normLabel lbl
    match streams.find? (fun st => st.ty == lbl) with
    | some st => .ok st
    | none => .error (.QualityUnavailable lbl)

/-! ### Helper lemmas: the dedup map -/

/-- At most one entry per `quality` key. -/
def KeysDistinct (m : List Stream) : Prop :=
  m.Pairwise (fun a b => a.quality ≠ b.quality)

theorem mem_insertStream {m : List Stream} {s x : Stream}
    (h : x ∈ insertStream m s) : x = s ∨ x ∈ m := by
  induction m with
  | nil => simpa [insertStream] using h
  | cons t ts ih =>
    simp only [insertStream] at h
    split at h
    · rcases List.mem_cons.1 h with h | h
      · exact .inl h
      · exact .inr (List.mem_cons_of_mem _ h)
    · rcases List.mem_cons.1 h with h | h
      · exact .inr (h ▸ List.mem_cons_self _ _)
      · rcases ih h with h | h
        · exact .inl h
        · exact .inr (List.mem_cons_of_mem _ h)

theorem insertStream_keysDistinct {m : List Stream} {s : Stream}
    (h : KeysDistinct m) : KeysDistinct (insertStream m s) := by
  induction m with
  | nil => simp [insertStream, KeysDistinct]
  | cons t ts ih =>
    rcases List.pairwise_cons.1 h with ⟨ht, hts⟩
    simp only [insertStream]
    split
    · rename_i heq
      exact List.pairwise_cons.2 ⟨fun b hb => heq ▸ ht b hb, hts⟩
    · rename_i hne
      refine List.pairwise_cons.2 ⟨?_, ih hts⟩
      intro b hb
      rcases mem_insertStream hb with rfl | hb
      · exact fun hq => hne hq
      · exact ht b hb

/-! ### Helper lemmas: the sort -/

theorem qle_refl (a : Stream) : qle a a = true := by
  unfold qle
  cases a.quality <;> simp

theorem qle_total (a b : Stream) : qle a b = true ∨ qle b a = true := by
  unfold qle
  cases a.quality with
  | none => simp
  | some x =>
    cases b.quality with
    | none => simp
    | some y => simpa using Nat.le_total y x

theorem qle_trans {a b c : Stream} (hab : qle a b = true) (hbc : qle b c = true) :
    qle a c = true := by
  unfold qle at *
  cases ha : a.quality with
  | none => simp
  | some x =>
    cases hb : b.quality with
    | none => rw [ha, hb] at hab; simp at hab
    | some y =>
      cases hc : c.quality with
      | none => rw [hb, hc] at hbc; simp at hbc
      | some z =>
        rw [ha, hb] at hab
        rw [hb, hc] at hbc
        simp only [decide_eq_true_eq] at *
        exact Nat.le_trans hbc hab

theorem perm_insertSorted (s : Stream) (l : List Stream) :
    (insertSorted s l).Perm (s :: l) := by
  induction l with
  | nil => simp [insertSorted]
  | cons t ts ih =>
    simp only [insertSorted]
    split
    · exact List.Perm.refl _
    · exact ((ih.cons t).trans (List.Perm.swap s t ts))

theorem sortStreams_perm (l : List Stream) : (sortStreams l).Perm l := by
  induction l with
  | nil => simp [sortStreams]
  | cons s ss ih =>
    exact (perm_insertSorted s (sortStreams ss)).trans (ih.cons s)

theorem pairwise_insertSorted (s : Stream) {l : List Stream}
    (h : l.Pairwise (fun a b => qle a b = true)) :
    (insertSorted s l).Pairwise (fun a b => qle a b = true) := by
  induction l with
  | nil => simp [insertSorted]
  | cons t ts ih =>
    rcases List.pairwise_cons.1 h with ⟨ht, hts⟩
    simp only [insertSorted]
    split
    · rename_i hst
      refine List.pairwise_cons.2 ⟨?_, h⟩
      intro b hb
      rcases List.mem_cons.1 hb with rfl | hb
      · exact hst
      · exact qle_trans hst (ht b hb)
    · rename_i hst
      have hts' : qle t s = true := (qle_total s t).resolve_left hst
      refine List.pairwise_cons.2 ⟨?_, ih hts⟩
      intro b hb
      rcases List.mem_cons.1 ((perm_insertSorted s ts).mem_iff.1 hb) with rfl | hb
      · exact hts'
      · exact ht b hb

theorem sortStreams_sorted (l : List Stream) :
    (sortStreams l).Pairwise (fun a b => qle a b = true) := by
  induction l with
  | nil => simp [sortStreams]
  | cons s ss ih => exact pairwise_insertSorted s ih

/-! ### Helper lemmas: the scanner -/

/-- Shape of every variant the scanner can emit: the `"chunked"` arm or the
numeric arm. -/
def EmitOk (s : Stream) : Prop :=
  (s.quality = none ∧ s.ty = "best") ∨
  ∃ n, s.quality = some n ∧ s.ty = Nat.repr n ++ "p"

theorem videoPhase_ok_map {st st' : ScanState} {line : String}
    (h : videoPhase st line = .ok st') : st'.map = st.map := by
  unfold videoPhase at h
  split at h
  · split at h
    · cases h
    · split at h
      · rename_i bw res heq
        injection h with h
        rw [← h]
      · cases h
  · injection h with h
    rw [← h]

theorem videoPhase_no_err {st : ScanState} {line : String} {e : Error} :
    videoPhase st line ≠ .err e := by
  unfold videoPhase
  split
  · rename_i hc
    split
    · rename_i hnone
      rw [containsSub, hnone] at hc
      simp at hc
    · split <;> simp
  · simp

theorem classifyPhase_no_err {st : ScanState} {line : String} {e : Error} :
    classifyPhase st line ≠ .err e := by
  unfold classifyPhase
  split
  · simp
  · split
    · simp
    · split
      · simp
      · split <;> simp

theorem classifyPhase_ok_map {st st' : ScanState} {line : String}
    (h : classifyPhase st line = .ok st') :
    st'.map = st.map ∨ ∃ s, EmitOk s ∧ st'.map = insertStream st.map s := by
  unfold classifyPhase at h
  split at h
  · injection h with h
    exact .inl (by rw [← h])
  · split at h
    · cases h
    · split at h
      · injection h with h
        refine .inr ⟨mkChunked st line, .inl ⟨rfl, rfl⟩, ?_⟩
        rw [← h]
      · split at h
        · rename_i n hn
          injection h with h
          refine .inr ⟨mkRanked st line n, .inr ⟨n, rfl, rfl⟩, ?_⟩
          rw [← h]
        · injection h with h
          exact .inl (by rw [← h])

theorem step_ok_map {st st' : ScanState} {line : String}
    (h : step st line = .ok st') :
    st'.map = st.map ∨ ∃ s, EmitOk s ∧ st'.map = insertStream st.map s := by
  unfold step at h
  split at h
  · rename_i st1 hvp
    rcases classifyPhase_ok_map h with h1 | ⟨s, hs, h1⟩
    · exact .inl (h1.trans (videoPhase_ok_map hvp))
    · exact .inr ⟨s, hs, by rw [h1, videoPhase_ok_map hvp]⟩
  · cases h
  · cases h

theorem step_no_err {st : ScanState} {line : String} {e : Error} :
    step st line ≠ .err e := by
  unfold step
  split
  · exact classifyPhase_no_err
  · rename_i hvp
    intro h
    injection h with h
    exact videoPhase_no_err (h ▸ hvp)
  · simp

/-- Any property of the map that survives `insertStream` with an `EmitOk`
stream is an invariant of the whole scan. -/
theorem runLines_inv (Q : List Stream → Prop)
    (hins : ∀ m s, EmitOk s → Q m → Q (insertStream m s)) :
    ∀ (ls : List String) (st st' : ScanState), Q st.map →
      runLines st ls = .ok st' → Q st'.map := by
  intro ls
  induction ls with
  | nil =>
    intro st st' hQ h
    simp only [runLines] at h
    injection h with h
    rw [← h]
    exact hQ
  | cons l ls ih =>
    intro st st' hQ h
    simp only [runLines] at h
    split at h
    · rename_i st1 hst
      rcases step_ok_map hst with hmap | ⟨s, hemit, hmap⟩
      · exact ih st1 st' (by rw [hmap]; exact hQ) h
      · exact ih st1 st' (by rw [hmap]; exact hins _ _ hemit hQ) h
    · cases h
    · cases h

theorem runLines_no_err {e : Error} :
    ∀ (ls : List String) (st : ScanState), runLines st ls ≠ .err e := by
  intro ls
  induction ls with
  | nil => intro st h; simp only [runLines] at h; cases h
  | cons l ls ih =>
    intro st h
    simp only [runLines] at h
    split at h
    · exact ih _ h
    · rename_i e' hst
      injection h with h
      exact step_no_err (h ▸ hst)
    · cases h

theorem get_ok {p : String} {l : List Stream} (h : get p = .ok l) :
    ∃ st, runLines initState (rustLines p) = .ok st ∧ l = sortStreams st.map := by
  unfold get at h
  split at h
  · rename_i st hst
    injection h with h
    exact ⟨st, hst, h.symm⟩
  · cases h
  · cases h

theorem get_no_err (p : String) : (get p).isTypedErr = false := by
  unfold get
  split
  · rfl
  · rename_i e hst
    exact absurd hst (runLines_no_err _ _)
  · rfl

theorem videoPhase_skip {st : ScanState} {line : String}
    (h : containsSub line "VIDEO=" = false) : videoPhase st line = .ok st := by
  unfold videoPhase
  rw [h]
  simp

theorem videoPhase_attr {st : ScanState} {line : String} {rest : List Char}
    {bw res : String}
    (hvid : afterFirst? "VIDEO=".data line.data = some rest)
    (hbw : searchAttr line "BANDWIDTH=" = some bw)
    (hres : searchAttr line "RESOLUTION=" = some res) :
    videoPhase st line =
      .ok { st with quality := removeQuotes rest, bandwidth := bw, resolution := res } := by
  simp [videoPhase, containsSub, hvid, hbw, hres]

theorem classifyPhase_skip {st : ScanState} {line : String}
    (h : st.quality = "" ∨ startsWithChar line '#' = true) :
    classifyPhase st line = .ok st := by
  unfold classifyPhase
  rw [if_pos]
  rcases h with h | h
  · exact .inl h
  · exact .inr h

theorem classifyPhase_panic {st : ScanState} {line : String}
    (hq : st.quality ≠ "") (hline : startsWithChar line '#' = false)
    (htake : takeBytes st.quality.data 3 = none) :
    classifyPhase st line = .panic := by
  unfold classifyPhase
  rw [if_neg, htake]
  rintro (h | h)
  · exact hq h
  · rw [hline] at h
    cases h

theorem step_unknown_tag {st : ScanState} {line : String} {pre : List Char}
    (hline1 : containsSub line "VIDEO=" = false)
    (hline2 : startsWithChar line '#' = false)
    (hq : st.quality ≠ "")
    (hchunk : st.quality ≠ "chunked")
    (htake : takeBytes st.quality.data 3 = some pre)
    (hparse : rustParseU32 ⟨pre⟩ = none) :
    step st line = .ok { st with quality := "" } := by
  unfold step
  rw [videoPhase_skip hline1]
  show classifyPhase st line = _
  unfold classifyPhase
  have hcond : ¬(st.quality = "" ∨ startsWithChar line '#' = true) := by
    rintro (h | h)
    · exact hq h
    · rw [hline2] at h
      cases h
  rw [if_neg hcond]
  simp only [htake, if_neg hchunk, hparse]

theorem takeBytes_none_of_short :
    ∀ (cs : List Char) (n : Nat), byteLenL cs < n → takeBytes cs n = none := by
  intro cs
  induction cs with
  | nil =>
    intro n h
    match n, h with
    | n + 1, _ => rfl
  | cons c cs ih =>
    intro n h
    have h1 : 0 < c.utf8Size := Char.utf8Size_pos c
    simp only [byteLenL] at h
    match n with
    | 0 => exact absurd h (Nat.not_lt_zero _)
    | k + 1 =>
      simp only [takeBytes]
      split
      · rw [ih (k + 1 - c.utf8Size) (by omega)]
        rfl
      · rfl

theorem runLines_panic_suffix {tail : List String}
    (htail : ∀ st, runLines st tail = .panic) :
    ∀ (pre : List String) (st : ScanState), runLines st (pre ++ tail) = .panic := by
  intro pre
  induction pre with
  | nil => intro st; simpa using htail st
  | cons l ls ih =>
    intro st
    simp only [List.cons_append, runLines]
    split
    · exact ih _
    · rename_i e hst
      exact absurd hst step_no_err
    · rfl

theorem attr_uri_panic {attr uri : String} {rest : List Char} {bw res : String}
    {post : List String}
    (hvid : afterFirst? "VIDEO=".data attr.data = some rest)
    (hbw : searchAttr attr "BANDWIDTH=" = some bw)
    (hres : searchAttr attr "RESOLUTION=" = some res)
    (hq : removeQuotes rest ≠ "")
    (hshort : byteLen (removeQuotes rest) < 3)
    (huri1 : containsSub uri "VIDEO=" = false)
    (huri2 : startsWithChar uri '#' = false) :
    ∀ st : ScanState, runLines st (attr :: uri :: post) = .panic := by
  intro st
  have htake : takeBytes (removeQuotes rest).data 3 = none :=
    takeBytes_none_of_short _ _ hshort
  have hvp := @videoPhase_attr st attr rest bw res hvid hbw hres
  by_cases hhash : startsWithChar attr '#' = true
  · have hstep : step st attr = .ok ⟨removeQuotes rest, res, bw, st.map⟩ := by
      unfold step
      rw [hvp]
      show classifyPhase _ attr = _
      exact classifyPhase_skip (.inr hhash)
    have hstep2 : step (⟨removeQuotes rest, res, bw, st.map⟩ : ScanState) uri = .panic := by
      unfold step
      rw [videoPhase_skip huri1]
      show classifyPhase _ uri = _
      exact classifyPhase_panic hq huri2 htake
    simp only [runLines, hstep, hstep2]
  · have hhash' : startsWithChar attr '#' = false := by simpa using hhash
    have hstep : step st attr = .panic := by
      unfold step
      rw [hvp]
      show classifyPhase _ attr = _
      exact classifyPhase_panic hq hhash' htake
    simp only [runLines, hstep]

/-- The decimal label of a numeric rank never collides with `"best"`: it
ends in `'p'`. -/
theorem repr_p_ne_best (n : Nat) : Nat.repr n ++ "p" ≠ "best" := by
  intro h
  have hdata : (Nat.repr n).data ++ ['p'] = "best".data := by
    have h2 := congrArg String.data h
    rwa [String.data_append] at h2
  have hlast := congrArg List.getLast? hdata
  rw [List.getLast?_concat] at hlast
  cases hlast

/-! ### Concrete inputs used by witnesses and counterexamples -/

/-- Two well-formed attribute/URI pairs: source (`chunked`) then `720p30`. -/
def samplePlaylist : String :=
  "#EXT-X-STREAM-INF:BANDWIDTH=6000000,RESOLUTION=1920x1080,VIDEO=\"chunked\"\nhttp://a\n#EXT-X-STREAM-INF:BANDWIDTH=3000000,RESOLUTION=1280x720,VIDEO=\"720p30\"\nhttp://b"

/-- The source variant parsed from `samplePlaylist`. -/
def bestStream : Stream := ⟨"1920x1080", "6000000", "http://a", none, "best"⟩

/-- The 720 variant parsed from `samplePlaylist`. -/
def s720 : Stream := ⟨"1280x720", "3000000", "http://b", some 720, "720p"⟩

/-- Two pairs under the same quality key `720`, different URIs. -/
def dupPlaylist : String :=
  "#E:BANDWIDTH=1,RESOLUTION=1x1,VIDEO=\"720p30\"\nhttp://x\n#E:BANDWIDTH=2,RESOLUTION=2x2,VIDEO=\"720p30\"\nhttp://y"

/-- The single variant parsed from `dupPlaylist`: the later pair's data. -/
def dupStream : Stream := ⟨"2x2", "2", "http://y", some 720, "720p"⟩

/-- An `audio_only` pair followed by a valid `720p60` pair. -/
def audioPlaylist : String :=
  "#E:BANDWIDTH=1,RESOLUTION=1x1,VIDEO=\"audio_only\"\nhttp://x\n#E:BANDWIDTH=2,RESOLUTION=2x2,VIDEO=\"720p60\"\nhttp://y"

/-- The single variant parsed from `audioPlaylist`. -/
def audio720 : Stream := ⟨"2x2", "2", "http://y", some 720, "720p"⟩

/-- A line with `VIDEO=` but no `BANDWIDTH=` attribute at all. -/
def noBandwidthLine : String := "#EXT:VIDEO=\"chunked\""

/-- A line whose `BANDWIDTH=` value is not terminated by a comma. -/
def noCommaLine : String := "#E:VIDEO=\"x\",BANDWIDTH=123"

/-- An attribute line whose quality tag `"hi"` is two bytes, followed by a
URI line. -/
def shortTagPlaylist : String :=
  "#E:BANDWIDTH=1,RESOLUTION=2x2,VIDEO=\"hi\"\nhttp://a"

/-! ### The claims -/

/-- C1: the spec says FromStr maps lower-cased `"worst"` or `"lowest"` to
the Lowest policy.  The source's match arm reads `"lowest "` with a
trailing space, so the plain input `"lowest"` falls through to
`Custom("lowest")`; `"lowest "` (with the space) and `"worst"` do map to
Lowest, and the Best arms behave as specified. -/
theorem quality_from_str_lowest_bug :
    quality_from_str "lowest" = Quality.Custom "lowest" ∧
    quality_from_str "worst" = Quality.Lowest ∧
    quality_from_str "lowest " = Quality.Lowest ∧
    quality_from_str "BEST" = Quality.Best ∧
    quality_from_str "Highest" = Quality.Best ∧
    quality_from_str "480" = Quality.Custom "480" := by
  refine ⟨rfl, rfl, rfl, ?_, ?_, rfl⟩ <;> rfl

/-- C2 counterexample: selecting from the empty collection with the
`Custom "720"` policy does not fail with `StreamOffline` — it fails with
`QualityUnavailable "720p"` (the Custom arm never touches the
first/last-element paths). -/
theorem select_empty_custom_not_offline :
    (select [] (Quality.Custom "720") = Except.error SelectError.StreamOffline) = False := by
  have h : select [] (Quality.Custom "720") =
      Except.error (SelectError.QualityUnavailable "720p") := rfl
  rw [h]
  simp

/-- C2 amended: on the empty collection, `Best` and `Lowest` fail with
`StreamOffline`, while `Custom label` fails with
`QualityUnavailable` of the normalized label. -/
theorem select_empty_amended :
    select [] Quality.Best = Except.error SelectError.StreamOffline ∧
    select [] Quality.Lowest = Except.error SelectError.StreamOffline ∧
    ∀ label, select [] (Quality.Custom label) =
      Except.error (SelectError.QualityUnavailable (normLabel label)) :=
  ⟨rfl, rfl, fun _ => rfl⟩

/-- C3: the claim says a `VIDEO=` line with a missing or non-comma-terminated
`BANDWIDTH=`/`RESOLUTION=` attribute yields the typed `InvalidPlaylist`
error.  In the source those conditions hit `line.find(q).unwrap()` /
`find(',').unwrap()`, which panic; the `InvalidPlaylist` arm sits behind the
`contains("VIDEO=")` guard and can never fire, so `get` returns a typed
error on no input at all. -/
theorem parser_panics_without_typed_error :
    get noBandwidthLine = Outcome.panic ∧
    get noCommaLine = Outcome.panic ∧
    ∀ p : String, (get p).isTypedErr = false :=
  ⟨rfl, rfl, get_no_err⟩

/-- C4: every successfully parsed collection is sorted under the
comparator (`none` before everything, numeric ranks descending); hence the
head relates by `qle` to every element, and when an entry with rank `none`
(`"chunked"`) exists the head's rank is `none`. -/
theorem get_ordering (p : String) (l : List Stream) (h : get p = .ok l) :
    l.Pairwise (fun a b => qle a b = true) ∧
    ∀ hd tl, l = hd :: tl →
      (∀ s ∈ l, qle hd s = true) ∧
      ((∃ s ∈ l, s.quality = Option.none) → hd.quality = Option.none) := by
  obtain ⟨st, hrun, rfl⟩ := get_ok h
  have hsorted := sortStreams_sorted st.map
  refine ⟨hsorted, fun hd tl hl => ?_⟩
  rw [hl] at hsorted
  have hfirst : ∀ s ∈ sortStreams st.map, qle hd s = true := by
    intro s hs
    rw [hl] at hs
    rcases List.mem_cons.1 hs with heq | hs'
    · rw [heq]
      exact qle_refl hd
    · exact (List.pairwise_cons.1 hsorted).1 s hs'
  refine ⟨hfirst, ?_⟩
  rintro ⟨s, hs, hq⟩
  cases hhd : hd.quality with
  | none => rfl
  | some x =>
    have hle := hfirst s hs
    simp [qle, hhd, hq] at hle

/-- C4 witness: the sample playlist parses to `[best, 720p]`, which is
sorted. -/
theorem get_ordering_witness :
    ([bestStream, s720] : List Stream).Pairwise (fun a b => qle a b = true) :=
  (get_ordering samplePlaylist [bestStream, s720] rfl).1

/-- C5: a parsed collection has pairwise distinct `quality` keys (at most
one variant per rank, the `none` bucket included), and when the playlist
lists two pairs under the same key the later pair's variant is the one
returned. -/
theorem get_dedup_by_quality :
    (∀ (p : String) (l : List Stream), get p = .ok l →
      l.Pairwise (fun a b => a.quality ≠ b.quality)) ∧
    get dupPlaylist = .ok [dupStream] := by
  constructor
  · intro p l h
    obtain ⟨st, hrun, rfl⟩ := get_ok h
    have hkd : KeysDistinct st.map :=
      runLines_inv KeysDistinct (fun m s _ hm => insertStream_keysDistinct hm)
        _ initState st (by simp [initState, KeysDistinct]) hrun
    exact ((sortStreams_perm st.map).pairwise_iff (fun h => h.symm)).2 hkd
  · rfl

/-- C5 witness: the duplicate-key playlist's parse has distinct keys. -/
theorem get_dedup_witness :
    ([dupStream] : List Stream).Pairwise (fun a b => a.quality ≠ b.quality) :=
  get_dedup_by_quality.1 dupPlaylist [dupStream] rfl

/-- C6: `Custom "720"` and `Custom "720p"` select identically on every
collection, and the normalization appends `"p"` exactly when the label
does not already end in `'p'`. -/
theorem custom_label_normalization :
    (∀ vs : List Stream,
      select vs (Quality.Custom "720") = select vs (Quality.Custom "720p")) ∧
    (∀ lbl : String, endsWithChar lbl 'p' = false → normLabel lbl = lbl ++ "p") ∧
    (∀ lbl : String, endsWithChar lbl 'p' = true → normLabel lbl = lbl) := by
  refine ⟨fun vs => ?_, fun lbl h => ?_, fun lbl h => ?_⟩
  · have h7 : normLabel "720" = normLabel "720p" := rfl
    simp only [select, h7]
  · simp [normLabel, h]
  · simp [normLabel, h]

/-- C6 witness: normalization at `"720"` (no trailing `p`) and `"720p"`
(trailing `p` present). -/
theorem custom_label_normalization_witness :
    normLabel "720" = "720" ++ "p" ∧ normLabel "720p" = "720p" :=
  ⟨custom_label_normalization.2.1 "720" rfl,
   custom_label_normalization.2.2 "720p" rfl⟩

/-- C7: on a URI line whose pending tag is neither `"chunked"` nor
numeric in its three-byte prefix, the scanner emits nothing, produces no
error, and continues with the map untouched and the tag cleared — and a
playlist with an `audio_only` pair followed by a valid pair still parses
the later pair. -/
theorem unknown_tag_skipped :
    (∀ (st : ScanState) (line : String) (pre : List Char),
      containsSub line "VIDEO=" = false →
      startsWithChar line '#' = false →
      st.quality ≠ "" →
      st.quality ≠ "chunked" →
      takeBytes st.quality.data 3 = some pre →
      rustParseU32 ⟨pre⟩ = none →
      step st line = .ok { st with quality := "" }) ∧
    get audioPlaylist = .ok [audio720] :=
  ⟨fun _ _ _ h1 h2 h3 h4 h5 h6 => step_unknown_tag h1 h2 h3 h4 h5 h6, rfl⟩

/-- C7 witness: the `audio_only` tag on a URI line is skipped in place. -/
theorem unknown_tag_skipped_witness :
    step ⟨"audio_only", "1x1", "1", []⟩ "http://x" = .ok ⟨"", "1x1", "1", []⟩ :=
  unknown_tag_skipped.1 ⟨"audio_only", "1x1", "1", []⟩ "http://x" "aud".data
    rfl rfl (by decide) (by decide) rfl rfl

/-- C8: on any parsed JSON value, the exchange fails with `FindToken`
(the spec's MissingToken) exactly when the `"token"` field is absent or
not a string, with `FindSignature` (MissingSignature) exactly when
`"token"` is a present string but `"sig"` is absent or not a string, and
the two error values are distinct. -/
theorem token_sig_errors (j : Json) :
    (extract_token_sig j = .error Error.FindToken ↔
      (jGet j "token").bind jAsStr = none) ∧
    (extract_token_sig j = .error Error.FindSignature ↔
      ((jGet j "token").bind jAsStr).isSome = true ∧
      (jGet j "sig").bind jAsStr = none) ∧
    Error.FindToken ≠ Error.FindSignature := by
  refine ⟨?_, ?_, by decide⟩ <;>
  · cases h1 : (jGet j "token").bind jAsStr <;>
      cases h2 : (jGet j "sig").bind jAsStr <;>
        simp [extract_token_sig, h1, h2]

/-- C8 witness: a body with only `sig` yields `FindToken`; a body with
only `token` yields `FindSignature`. -/
theorem token_sig_errors_witness :
    extract_token_sig (Json.obj [("sig", Json.str "s")]) = .error Error.FindToken ∧
    extract_token_sig (Json.obj [("token", Json.str "t")]) = .error Error.FindSignature :=
  ⟨(token_sig_errors _).1.mpr rfl, (token_sig_errors _).2.1.mpr ⟨rfl, rfl⟩⟩

/-- C9: every variant `get` returns carries the label invariant: `ty`
is `"best"` iff the rank is `none`, and a numeric rank `n` forces the
label `repr n ++ "p"`. -/
theorem get_label_invariant (p : String) (l : List Stream) (h : get p = .ok l) :
    ∀ s ∈ l, (s.ty = "best" ↔ s.quality = Option.none) ∧
      ∀ n, s.quality = some n → s.ty = Nat.repr n ++ "p" := by
  obtain ⟨st, hrun, rfl⟩ := get_ok h
  have hmap : ∀ x ∈ st.map, EmitOk x :=
    runLines_inv (fun m => ∀ x ∈ m, EmitOk x)
      (fun m s hs hm x hx => (mem_insertStream hx).elim (fun he => he ▸ hs) (hm x))
      _ initState st (by simp [initState]) hrun
  intro s hs
  have hemit : EmitOk s := hmap s ((sortStreams_perm st.map).mem_iff.1 hs)
  rcases hemit with ⟨hq, hty⟩ | ⟨n, hq, hty⟩
  · refine ⟨by simp [hq, hty], fun n hn => ?_⟩
    rw [hq] at hn
    cases hn
  · refine ⟨⟨fun hbest => ?_, fun hnone => ?_⟩, fun m hm => ?_⟩
    · rw [hty] at hbest
      exact absurd hbest (repr_p_ne_best n)
    · rw [hq] at hnone
      cases hnone
    · rw [hq] at hm
      injection hm with hm
      rw [hty, hm]

/-- C9 witness: the invariant holds of the 720p variant of the sample
playlist. -/
theorem get_label_invariant_witness :
    (s720.ty = "best" ↔ s720.quality = Option.none) ∧
    ∀ n, s720.quality = some n → s720.ty = Nat.repr n ++ "p" :=
  get_label_invariant samplePlaylist [bestStream, s720] rfl s720 (by simp)

/-- C10: whenever some line of the playlist contains `VIDEO=` with both
attribute searches succeeding but a (non-empty) quality tag of fewer than
three bytes, and the following line is a URI line (no `VIDEO=`, not a
comment), `get` is a panic — neither a variant collection nor a typed
error — because `quality[..3]` is sliced unconditionally. -/
theorem short_tag_panics (txt : String) (pre post : List String)
    (attr uri : String) (rest : List Char) (bw res : String)
    (hsplit : rustLines txt = pre ++ attr :: uri :: post)
    (hvid : afterFirst? "VIDEO=".data attr.data = some rest)
    (hbw : searchAttr attr "BANDWIDTH=" = some bw)
    (hres : searchAttr attr "RESOLUTION=" = some res)
    (hq : removeQuotes rest ≠ "")
    (hshort : byteLen (removeQuotes rest) < 3)
    (huri1 : containsSub uri "VIDEO=" = false)
    (huri2 : startsWithChar uri '#' = false) :
    get txt = Outcome.panic := by
  unfold get
  rw [hsplit, runLines_panic_suffix
    (attr_uri_panic hvid hbw hres hq hshort huri1 huri2) pre initState]

/-- C10 witness: the two-byte tag `"hi"` panics the parser. -/
theorem short_tag_panics_witness : get shortTagPlaylist = Outcome.panic :=
  short_tag_panics shortTagPlaylist [] []
    "#E:BANDWIDTH=1,RESOLUTION=2x2,VIDEO=\"hi\"" "http://a"
    ("\"hi\"".data) "1" "2x2"
    rfl rfl rfl rfl (by decide) (by decide) rfl rfl

end Twitchlink
